import Mathlib

/-!
Verification of the `cc2jsonparser` JSON conformance checker
(`src/cc2jsonparser/src/main.rs`): a shallow embedding of its lexer
(`tokenize`) and recursive-descent validator (`parse_tokens` with the
`new_parse_object` / `new_parse_object_member` / `new_parse_object_value` /
`new_parse_array` / `new_parse_array_element` rules over the `JsonParser`
cursor), followed by theorems about the embedded code.

Modelling conventions:
- Rust `String` payloads are `List Char`.
- The lexer's inner `while` loops over the character iterator become the
  explicit scanners `scanString` and `scanDigits`.
- The `.unwrap()` calls on `iter.next()` in the `t`/`f`/`n` keyword arms
  panic when the line is exhausted; a panic is a distinct observable
  outcome, so the lexer result type `TokResult` has an explicit `panic`
  constructor besides `ok` and `err` (the Rust `TokenizeError`).
- The grammar rules are mutually recursive through the cursor; recursion
  is bounded by an explicit fuel parameter, structurally decreasing at
  every rule entry.  Every rule either consumes a token before recursing
  or switches to a rule that does, so the call depth on a token sequence
  of length `n` is at most `3 * n + 8`, the fuel supplied at top level.
-/

namespace Cc2Json

/-- The `Token` enum of the source, including the `EOF` sentinel that the
cursor returns when reading past the end. -/
inductive Token where
  | leftBrace
  | rightBrace
  | colon
  | comma
  | string (s : List Char)
  | tTrue
  | tFalse
  | null
  | number (s : List Char)
  | leftBracket
  | rightBracket
  | eof
deriving DecidableEq, Repr

/-- Outcome of `tokenize`: `ok` with the token list, `err` for the Rust
`Err(TokenizeError)` return, `panic` for the `.unwrap()` panic on a
truncated `true`/`false`/`null` keyword. -/
inductive TokResult where
  | ok (ts : List Token)
  | err
  | panic
deriving DecidableEq, Repr

/-- Prepend a produced token to the outcome of lexing the rest of the
line (the `tokens.push(t)` of the source loop); failures pass through. -/
def TokResult.consTok (t : Token) : TokResult → TokResult
  | .ok ts => .ok (t :: ts)
  | .err => .err
  | .panic => .panic

/-- The inner `while` loop of the `'"'` arm of `tokenize`: consume
characters until and including the next `'"'`.  Returns the consumed
characters (closing quote included when found) and the rest of the line;
if the line is exhausted first, everything is consumed and no closing
quote is appended (the Rust loop simply ends). -/
def scanString : List Char → List Char × List Char
  | [] => ([], [])
  | c :: cs =>
    if c = '\"' then ([c], cs)
    else
      let r := scanString cs
      (c :: r.1, r.2)

/-- The inner `while` loop of the digit arm of `tokenize`: greedily peel
off further ASCII digits.  Returns the digits consumed and the rest. -/
def scanDigits : List Char → List Char × List Char
  | [] => ([], [])
  | c :: cs =>
    if c.isDigit then
      let r := scanDigits cs
      (c :: r.1, r.2)
    else ([], c :: cs)

/-- One line of the `tokenize` loop, character by character, mirroring the
per-character dispatch `match` of the source.  The fuel argument makes the
recursion structural; each step consumes at least one character, so fuel
equal to the line length (supplied by `tokenizeLine`) never runs out. -/
def tokenizeLineF : Nat → List Char → TokResult
  | _, [] => .ok []
  | 0, _ :: _ => .err
  | f + 1, c :: cs =>
    if c = '{' then .consTok .leftBrace (tokenizeLineF f cs)
    else if c = '}' then .consTok .rightBrace (tokenizeLineF f cs)
    else if c = '[' then .consTok .leftBracket (tokenizeLineF f cs)
    else if c = ']' then .consTok .rightBracket (tokenizeLineF f cs)
    else if c = ':' then .consTok .colon (tokenizeLineF f cs)
    else if c = ',' then .consTok .comma (tokenizeLineF f cs)
    else if c = '\"' then
      let r := scanString cs
      .consTok (.string (c :: r.1)) (tokenizeLineF f r.2)
    else if c = 't' then
      match cs with
      | c1 :: c2 :: c3 :: rest =>
        if c1 = 'r' && c2 = 'u' && c3 = 'e' then
          .consTok .tTrue (tokenizeLineF f rest)
        else .err
      | _ => .panic
    else if c = 'f' then
      match cs with
      | c1 :: c2 :: c3 :: c4 :: rest =>
        if c1 = 'a' && c2 = 'l' && c3 = 's' && c4 = 'e' then
          .consTok .tFalse (tokenizeLineF f rest)
        else .err
      | _ => .panic
    else if c = 'n' then
      match cs with
      | c1 :: c2 :: c3 :: rest =>
        if c1 = 'u' && c2 = 'l' && c3 = 'l' then
          .consTok .null (tokenizeLineF f rest)
        else .err
      | _ => .panic
    else if c.isDigit then
      let r := scanDigits cs
      .consTok (.number (c :: r.1)) (tokenizeLineF f r.2)
    else if c = ' ' then tokenizeLineF f cs
    else .err

/-- Lex one line of input. -/
def tokenizeLine (l : List Char) : TokResult :=
  tokenizeLineF l.length l

/-- The `tokenize` function of the source: lex each line in order,
concatenating the produced tokens; the first `err` or `panic` aborts. -/
def tokenize : List (List Char) → TokResult
  | [] => .ok []
  | l :: ls =>
    match tokenizeLine l with
    | .ok ts =>
      match tokenize ls with
      | .ok ts2 => .ok (ts ++ ts2)
      | .err => .err
      | .panic => .panic
    | .err => .err
    | .panic => .panic

/-- The `is_simple_value` predicate of the source. -/
def is_simple_value : Token → Bool
  | .string _ => true
  | .tTrue => true
  | .tFalse => true
  | .null => true
  | .number _ => true
  | _ => false

/-- The `JsonParser` cursor: the Rust struct holds a peekable iterator
over the token slice, embedded here as the list of tokens not yet
consumed. -/
structure JsonParser where
  iter : List Token
deriving DecidableEq, Repr

namespace JsonParser

/-- The `read` method: consume and return the current token, or the `EOF`
sentinel (without advancing) when past the end. -/
def read (p : JsonParser) : Token × JsonParser :=
  match p.iter with
  | [] => (.eof, ⟨[]⟩)
  | t :: ts => (t, ⟨ts⟩)

/-- The `peek` method: the current token without advancing, or `EOF`. -/
def peek (p : JsonParser) : Token :=
  match p.iter with
  | [] => .eof
  | t :: _ => t

/-- The `is_eof` method. -/
def is_eof (p : JsonParser) : Bool :=
  p.iter.isEmpty

/-- The `read_left_brace` method: read one token, succeed iff it was `{`. -/
def read_left_brace (p : JsonParser) : Bool × JsonParser :=
  let r := p.read
  match r.1 with
  | .leftBrace => (true, r.2)
  | _ => (false, r.2)

/-- The `read_right_brace` method. -/
def read_right_brace (p : JsonParser) : Bool × JsonParser :=
  let r := p.read
  match r.1 with
  | .rightBrace => (true, r.2)
  | _ => (false, r.2)

/-- The `read_object_key` method: read one token, succeed iff it was a
string literal. -/
def read_object_key (p : JsonParser) : Bool × JsonParser :=
  let r := p.read
  match r.1 with
  | .string _ => (true, r.2)
  | _ => (false, r.2)

/-- The `read_colon` method. -/
def read_colon (p : JsonParser) : Bool × JsonParser :=
  let r := p.read
  match r.1 with
  | .colon => (true, r.2)
  | _ => (false, r.2)

/-- The `read_left_bracket` method. -/
def read_left_bracket (p : JsonParser) : Bool × JsonParser :=
  let r := p.read
  match r.1 with
  | .leftBracket => (true, r.2)
  | _ => (false, r.2)

/-- The `read_right_bracket` method. -/
def read_right_bracket (p : JsonParser) : Bool × JsonParser :=
  let r := p.read
  match r.1 with
  | .rightBracket => (true, r.2)
  | _ => (false, r.2)

/-- Iterate `read` a given number of times, collecting the tokens it
yields; used to state that reading past the end keeps yielding `EOF`. -/
def reads : Nat → JsonParser → List Token
  | 0, _ => []
  | n + 1, p =>
    let r := p.read
    r.1 :: reads n r.2

end JsonParser

mutual

/-- The `new_parse_object` rule.  Note the source discards both the result
of `read_left_brace` and the result of the members `match`; the function's
value is solely the result of the final `read_right_brace` call. -/
def new_parse_object : Nat → JsonParser → Bool × JsonParser
  | 0, p => (false, p)
  | fuel + 1, p =>
    let p1 := (p.read_left_brace).2
    let m := object_members_phase fuel p1
    JsonParser.read_right_brace m.2

/-- The members `match` inside `new_parse_object` (empty object, member
list, or invalid lookahead), named so theorems can refer to its result. -/
def object_members_phase : Nat → JsonParser → Bool × JsonParser
  | 0, p => (false, p)
  | fuel + 1, p1 =>
    match p1.peek with
    | .rightBrace => (true, p1)
    | .string _ => new_parse_object_member fuel p1
    | _ => (false, p1)

/-- The `new_parse_object_member` rule: key, colon, value, then an
optional comma-separated continuation; a comma must be followed by a
further member. -/
def new_parse_object_member : Nat → JsonParser → Bool × JsonParser
  | 0, p => (false, p)
  | fuel + 1, p =>
    let k := p.read_object_key
    if !k.1 then (false, k.2)
    else
      let c := (k.2).read_colon
      if !c.1 then (false, c.2)
      else
        let v := new_parse_object_value fuel c.2
        if !v.1 then (false, v.2)
        else
          match (v.2).peek with
          | .comma => new_parse_object_member fuel ((v.2).read).2
          | .rightBrace => (true, v.2)
          | _ => (false, v.2)

/-- The `new_parse_object_value` rule: a simple value is read directly,
braces and brackets recurse, anything else fails without consuming. -/
def new_parse_object_value : Nat → JsonParser → Bool × JsonParser
  | 0, p => (false, p)
  | fuel + 1, p =>
    if is_simple_value p.peek then (true, (p.read).2)
    else
      match p.peek with
      | .leftBrace => new_parse_object fuel p
      | .leftBracket => new_parse_array fuel p
      | _ => (false, p)

/-- The `new_parse_array` rule.  Unlike the object rule, the elements
result is bound and checked: the closing `read_right_bracket` only runs
when the elements phase succeeded. -/
def new_parse_array : Nat → JsonParser → Bool × JsonParser
  | 0, p => (false, p)
  | fuel + 1, p =>
    let p1 := (p.read_left_bracket).2
    let v := array_elements_phase fuel p1
    if v.1 then JsonParser.read_right_bracket v.2 else (false, v.2)

/-- The elements `match` inside `new_parse_array` (empty array or element
list), named so theorems can refer to its result. -/
def array_elements_phase : Nat → JsonParser → Bool × JsonParser
  | 0, p => (false, p)
  | fuel + 1, p1 =>
    match p1.peek with
    | .rightBracket => (true, p1)
    | _ => new_parse_array_element fuel p1

/-- The `new_parse_array_element` rule: a value, then an optional
comma-separated continuation; a comma must be followed by a further
element. -/
def new_parse_array_element : Nat → JsonParser → Bool × JsonParser
  | 0, p => (false, p)
  | fuel + 1, p =>
    let v :=
      if is_simple_value p.peek then (true, (p.read).2)
      else
        match p.peek with
        | .leftBrace => new_parse_object fuel p
        | .leftBracket => new_parse_array fuel p
        | _ => (false, p)
    if !v.1 then (false, v.2)
    else
      match (v.2).peek with
      | .comma => new_parse_array_element fuel ((v.2).read).2
      | _ => (true, v.2)

end

/-- The `ParseError` value of the source. -/
structure ParseError
deriving DecidableEq, Repr

/-- The top-level value dispatch of `parse_tokens`: peek at the first
token; a simple value is read directly, `{` and `[` enter the object and
array rules.  Returns the verdict together with the cursor left behind. -/
def parse_value_step (tokens : List Token) : Bool × JsonParser :=
  let p : JsonParser := ⟨tokens⟩
  if is_simple_value p.peek then (true, (p.read).2)
  else
    match p.peek with
    | .leftBrace => new_parse_object (3 * tokens.length + 8) p
    | .leftBracket => new_parse_array (3 * tokens.length + 8) p
    | _ => (false, p)

/-- The `parse_tokens` function of the source: the document is valid iff
the value rule succeeded and the cursor is exhausted. -/
def parse_tokens (tokens : List Token) : Except ParseError Unit :=
  let r := parse_value_step tokens
  if r.1 && (r.2).is_eof then .ok () else .error ⟨⟩

end Cc2Json

namespace Cc2Json

/-! ## Helper lemmas -/

/-- The string scanner consumes the whole rest of the line when it holds
no closing quote. -/
theorem scanString_no_quote : ∀ cs : List Char, (∀ c ∈ cs, c ≠ '\"') →
    scanString cs = (cs, [])
  | [], _ => rfl
  | c :: cs, h => by
    have hc : c ≠ '\"' := h c (List.mem_cons_self c cs)
    have ih := scanString_no_quote cs (fun x hx => h x (List.mem_cons_of_mem c hx))
    simp [scanString, hc, ih]

/-- The digit scanner consumes exactly a run of digits, stopping at the
first non-digit (or the end of the line). -/
theorem scanDigits_append : ∀ ds rest : List Char, (∀ c ∈ ds, c.isDigit = true) →
    (∀ c, rest.head? = some c → c.isDigit = false) →
    scanDigits (ds ++ rest) = (ds, rest)
  | [], rest, _, hr => by
    cases rest with
    | nil => rfl
    | cons c cs =>
      have hc : c.isDigit = false := hr c rfl
      simp [scanDigits, hc]
  | d :: ds, rest, hd, hr => by
    have h1 : d.isDigit = true := hd d (List.mem_cons_self d ds)
    have ih := scanDigits_append ds rest (fun x hx => hd x (List.mem_cons_of_mem d hx)) hr
    simp [scanDigits, h1, ih]

/-- Lexing an exhausted line yields no tokens, whatever the fuel. -/
theorem tokenizeLineF_nil : ∀ g : Nat, tokenizeLineF g [] = .ok []
  | 0 => rfl
  | _ + 1 => rfl

/-- The `read_right_brace` call succeeds exactly when the token under the
cursor is a right brace (reading past the end yields `EOF`, which is not
one). -/
theorem read_right_brace_fst (q : JsonParser) :
    ((JsonParser.read_right_brace q).1 = true) ↔ q.peek = Token.rightBrace := by
  obtain ⟨ts⟩ := q
  cases ts with
  | nil => simp [JsonParser.read_right_brace, JsonParser.read, JsonParser.peek]
  | cons t ts =>
    cases t <;> simp [JsonParser.read_right_brace, JsonParser.read, JsonParser.peek]

end Cc2Json

namespace Cc2Json

/-! ## Claim theorems -/

/-- C1: on the token sequence `LeftBrace, StringLiteral, Colon,
RightBrace` (the input `{"key":}`, whose member's value is missing) the
validator accepts: `new_parse_object` discards the member sub-parse
result and returns only the result of `read_right_brace`, so the failure
is masked by the coincidental right brace.  This evaluates the code at
the failing input of the claim. -/
theorem missing_member_value_accepted :
    parse_tokens [Token.leftBrace, Token.string ['\"', 'k', 'e', 'y', '\"'],
      Token.colon, Token.rightBrace] = .ok () := by
  rfl

/-- C3: a `t`, `f` or `n` whose keyword is cut off by the end of the line
makes `tokenize` panic (the `.unwrap()` of `iter.next()` hits `None`)
instead of returning the `TokenizeError` value; a misspelled keyword with
enough characters left does return the error value. -/
theorem truncated_keyword_panics :
    tokenize [['t', 'r']] = .panic ∧
    tokenize [['f', 'a', 'l']] = .panic ∧
    tokenize [['n']] = .panic ∧
    tokenize [['t', 'x', 'x', 'x']] = .err := by
  exact ⟨rfl, rfl, rfl, rfl⟩

/-- C5: the token sequences of `{"key":"value",}` and
`["value","value2",]` — a member/element list ending in a comma followed
immediately by the closing delimiter — are both rejected. -/
theorem trailing_comma_rejected :
    parse_tokens [Token.leftBrace, Token.string ['\"', 'k', 'e', 'y', '\"'],
        Token.colon, Token.string ['\"', 'v', 'a', 'l', 'u', 'e', '\"'],
        Token.comma, Token.rightBrace] = .error ⟨⟩ ∧
    parse_tokens [Token.leftBracket, Token.string ['\"', 'v', 'a', 'l', 'u', 'e', '\"'],
        Token.comma, Token.string ['\"', 'v', 'a', 'l', 'u', 'e', '2', '\"'],
        Token.comma, Token.rightBracket] = .error ⟨⟩ := by
  exact ⟨rfl, rfl⟩

/-- C6: when the top-level value rule succeeds but leaves at least one
unconsumed token behind, `parse_tokens` rejects the sequence, even though
the consumed prefix on its own was a valid value. -/
theorem leftover_tokens_rejected (ts : List Token)
    (h1 : (parse_value_step ts).1 = true)
    (h2 : (parse_value_step ts).2.iter ≠ []) :
    parse_tokens ts = .error ⟨⟩ := by
  have he : (parse_value_step ts).2.is_eof = false := by
    cases hli : (parse_value_step ts).2.iter with
    | nil => exact absurd hli h2
    | cons a as => simp [JsonParser.is_eof, hli]
  simp [parse_tokens, h1, he]

/-- Witness for C6: two concatenated top-level `true` values are
rejected. -/
theorem leftover_tokens_rejected_witness :
    parse_tokens [Token.tTrue, Token.tTrue] = .error ⟨⟩ :=
  leftover_tokens_rejected [Token.tTrue, Token.tTrue] (by decide) (by decide)

/-- C7: a token sequence consisting of exactly one simple-value token
(string, true, false, null or number) validates as a complete document. -/
theorem bare_simple_value_accepted (t : Token) (h : is_simple_value t = true) :
    parse_tokens [t] = .ok () := by
  simp [parse_tokens, parse_value_step, JsonParser.peek, JsonParser.read,
    JsonParser.is_eof, h]

/-- Witness for C7: a bare `null` document is accepted. -/
theorem bare_simple_value_accepted_witness :
    parse_tokens [Token.null] = .ok () :=
  bare_simple_value_accepted Token.null (by decide)

/-- C8: at or past the end of the token sequence the cursor is total:
`peek` yields the `EOF` sentinel and any number of further `read` calls
keep yielding `EOF`. -/
theorem cursor_past_end_yields_eof (p : JsonParser) (n : Nat)
    (h : p.is_eof = true) :
    p.peek = Token.eof ∧ JsonParser.reads n p = List.replicate n Token.eof := by
  obtain ⟨ts⟩ := p
  have hts : ts = [] := by
    cases ts with
    | nil => rfl
    | cons a as => simp [JsonParser.is_eof] at h
  subst hts
  refine ⟨rfl, ?_⟩
  induction n with
  | zero => rfl
  | succ n ih =>
    simp [JsonParser.reads, JsonParser.read, ih, List.replicate_succ]

/-- Witness for C8: five reads past the end of an exhausted cursor all
yield `EOF`. -/
theorem cursor_past_end_yields_eof_witness :
    JsonParser.peek ⟨[]⟩ = Token.eof ∧
    JsonParser.reads 5 ⟨[]⟩ = List.replicate 5 Token.eof :=
  cursor_past_end_yields_eof ⟨[]⟩ 5 (by decide)

/-- C9: the empty token sequence is rejected by the validator itself
(the top-level peek yields `EOF`, which matches no value rule). -/
theorem empty_sequence_rejected :
    parse_tokens [] = .error ⟨⟩ := by
  rfl

end Cc2Json

namespace Cc2Json

/-- Unfolding equation for one step of the per-line lexer loop, with fuel
available and a character to consume. -/
theorem tokenizeLineF_cons (f : Nat) (c : Char) (cs : List Char) :
    tokenizeLineF (f + 1) (c :: cs) =
      (if c = '{' then .consTok .leftBrace (tokenizeLineF f cs)
       else if c = '}' then .consTok .rightBrace (tokenizeLineF f cs)
       else if c = '[' then .consTok .leftBracket (tokenizeLineF f cs)
       else if c = ']' then .consTok .rightBracket (tokenizeLineF f cs)
       else if c = ':' then .consTok .colon (tokenizeLineF f cs)
       else if c = ',' then .consTok .comma (tokenizeLineF f cs)
       else if c = '\"' then
         let r := scanString cs
         .consTok (.string (c :: r.1)) (tokenizeLineF f r.2)
       else if c = 't' then
         match cs with
         | c1 :: c2 :: c3 :: rest =>
           if c1 = 'r' && c2 = 'u' && c3 = 'e' then
             .consTok .tTrue (tokenizeLineF f rest)
           else .err
         | _ => .panic
       else if c = 'f' then
         match cs with
         | c1 :: c2 :: c3 :: c4 :: rest =>
           if c1 = 'a' && c2 = 'l' && c3 = 's' && c4 = 'e' then
             .consTok .tFalse (tokenizeLineF f rest)
           else .err
         | _ => .panic
       else if c = 'n' then
         match cs with
         | c1 :: c2 :: c3 :: rest =>
           if c1 = 'u' && c2 = 'l' && c3 = 'l' then
             .consTok .null (tokenizeLineF f rest)
           else .err
         | _ => .panic
       else if c.isDigit then
         let r := scanDigits cs
         .consTok (.number (c :: r.1)) (tokenizeLineF f r.2)
       else if c = ' ' then tokenizeLineF f cs
       else .err) := by
  rfl

/-- C2 counterexample: on the single line `"ab` — a double quote with no
closing quote before the line ends — `tokenize` does not return the
error value: it returns `ok` with a `StringLiteral` token whose payload
has no closing quote. -/
theorem unterminated_string_counterexample :
    tokenize [['\"', 'a', 'b']] = .ok [Token.string ['\"', 'a', 'b']] ∧
    tokenize [['\"', 'a', 'b']] ≠ .err := by
  exact ⟨rfl, by decide⟩

/-- C2 amended: when a double quote opens a string literal and no closing
quote occurs before the line's characters are exhausted, `tokenize`
succeeds, producing a single `StringLiteral` token whose payload is the
opening quote followed by all remaining characters of the line (no
closing quote, no failure, no undefined behavior). -/
theorem unterminated_string_token (cs : List Char) (h : ∀ c ∈ cs, c ≠ '\"') :
    tokenize [('\"' :: cs)] = .ok [Token.string ('\"' :: cs)] := by
  have hs : scanString cs = (cs, []) := scanString_no_quote cs h
  have hline : tokenizeLine ('\"' :: cs) = .ok [Token.string ('\"' :: cs)] := by
    show tokenizeLineF (('\"' :: cs).length) ('\"' :: cs) = _
    rw [List.length_cons, tokenizeLineF_cons]
    simp [hs, tokenizeLineF_nil, TokResult.consTok]
  simp [tokenize, hline]

/-- Witness for C2 amended: the line `"ab` yields exactly the unclosed
string token. -/
theorem unterminated_string_token_witness :
    tokenize [('\"' :: ['a', 'b'])] = .ok [Token.string ('\"' :: ['a', 'b'])] :=
  unterminated_string_token ['a', 'b'] (by decide)

/-- C4 counterexample: the object and array rules are not symmetric.  On
`{"k":}` the member phase fails yet `new_parse_object` returns `true`
(the failure is masked by the coincidental right brace); on `[:]` the
element phase fails and `new_parse_array` returns `false` without ever
reading the closing bracket, which stays on the cursor. -/
theorem object_array_symmetry_counterexample :
    object_members_phase 4 ⟨[Token.string ['\"', 'k', '\"'], Token.colon,
        Token.rightBrace]⟩ = (false, ⟨[Token.rightBrace]⟩) ∧
    new_parse_object 5 ⟨[Token.leftBrace, Token.string ['\"', 'k', '\"'],
        Token.colon, Token.rightBrace]⟩ = (true, ⟨[]⟩) ∧
    new_parse_array 5 ⟨[Token.leftBracket, Token.colon,
        Token.rightBracket]⟩ = (false, ⟨[Token.colon, Token.rightBracket]⟩) := by
  exact ⟨rfl, rfl, rfl⟩

/-- C4 amended: the two rules are asymmetric.  In `new_parse_object` the
closing-brace read always happens and is the whole result — the object
succeeds exactly when a `RightBrace` happens to be next after the members
phase, whatever that phase returned; in `new_parse_array` a failed
elements phase makes the array fail immediately, without the closing
bracket ever being read. -/
theorem object_array_asymmetry (fuel : Nat) (p : JsonParser) :
    ((new_parse_object (fuel + 1) p).1 = true ↔
      (object_members_phase fuel (p.read_left_brace).2).2.peek = Token.rightBrace) ∧
    ((array_elements_phase fuel (p.read_left_bracket).2).1 = false →
      new_parse_array (fuel + 1) p
        = (false, (array_elements_phase fuel (p.read_left_bracket).2).2)) := by
  constructor
  · rw [show new_parse_object (fuel + 1) p
        = JsonParser.read_right_brace
            (object_members_phase fuel (p.read_left_brace).2).2 from rfl]
    exact read_right_brace_fst _
  · intro h
    simp [new_parse_array, h]

/-- Witness for C4 amended: on `[:]` the elements phase fails and the
array rule returns `false` with the closing bracket still unread. -/
theorem object_array_asymmetry_witness :
    new_parse_array 5 ⟨[Token.leftBracket, Token.colon, Token.rightBracket]⟩
      = (false, ⟨[Token.colon, Token.rightBracket]⟩) :=
  (object_array_asymmetry 4 ⟨[Token.leftBracket, Token.colon,
    Token.rightBracket]⟩).2 (by decide)

/-- C10: a maximal run of ASCII digits — the first character a digit, the
rest of the run digits, the next character (if any) not a digit — lexes
to a single `NumberLiteral` token whose payload is exactly the run,
leading zeros included; a line that is exactly such a run tokenizes to
that one token, and the validator accepts it as a complete document. -/
theorem number_run_single_token (f : Nat) (d : Char) (ds rest : List Char)
    (hd : d.isDigit = true) (hds : ∀ c ∈ ds, c.isDigit = true)
    (hr : ∀ c, rest.head? = some c → c.isDigit = false) :
    tokenizeLineF (f + 1) (d :: (ds ++ rest))
        = TokResult.consTok (Token.number (d :: ds)) (tokenizeLineF f rest) ∧
    tokenize [d :: ds] = .ok [Token.number (d :: ds)] ∧
    parse_tokens [Token.number (d :: ds)] = .ok () := by
  have h1 : ¬ d = '{' := by rintro rfl; exact absurd hd (by decide)
  have h2 : ¬ d = '}' := by rintro rfl; exact absurd hd (by decide)
  have h3 : ¬ d = '[' := by rintro rfl; exact absurd hd (by decide)
  have h4 : ¬ d = ']' := by rintro rfl; exact absurd hd (by decide)
  have h5 : ¬ d = ':' := by rintro rfl; exact absurd hd (by decide)
  have h6 : ¬ d = ',' := by rintro rfl; exact absurd hd (by decide)
  have h7 : ¬ d = '\"' := by rintro rfl; exact absurd hd (by decide)
  have h8 : ¬ d = 't' := by rintro rfl; exact absurd hd (by decide)
  have h9 : ¬ d = 'f' := by rintro rfl; exact absurd hd (by decide)
  have h10 : ¬ d = 'n' := by rintro rfl; exact absurd hd (by decide)
  have key : ∀ (g : Nat) (r2 : List Char), (∀ c, r2.head? = some c → c.isDigit = false) →
      tokenizeLineF (g + 1) (d :: (ds ++ r2))
        = TokResult.consTok (Token.number (d :: ds)) (tokenizeLineF g r2) := by
    intro g r2 hr2
    have hsd : scanDigits (ds ++ r2) = (ds, r2) := scanDigits_append ds r2 hds hr2
    rw [tokenizeLineF_cons]
    simp [h1, h2, h3, h4, h5, h6, h7, h8, h9, h10, hd, hsd]
  refine ⟨key f rest hr, ?_, ?_⟩
  · have hk := key ds.length [] (fun c hc => nomatch hc)
    rw [List.append_nil] at hk
    have hline : tokenizeLine (d :: ds) = .ok [Token.number (d :: ds)] := by
      show tokenizeLineF ((d :: ds).length) (d :: ds) = _
      rw [List.length_cons, hk]
      simp [tokenizeLineF_nil, TokResult.consTok]
    simp [tokenize, hline]
  · rfl

/-- Witness for C10: the run `007` becomes the single token
`NumberLiteral "007"`, the line `007` tokenizes to exactly that token,
and the validator accepts it. -/
theorem number_run_single_token_witness :
    tokenizeLineF 4 ['0', '0', '7']
        = TokResult.consTok (Token.number ['0', '0', '7']) (tokenizeLineF 3 []) ∧
    tokenize [['0', '0', '7']] = .ok [Token.number ['0', '0', '7']] ∧
    parse_tokens [Token.number ['0', '0', '7']] = .ok () :=
  number_run_single_token 3 '0' ['0', '7'] [] (by decide) (by decide)
    (fun c hc => nomatch hc)

end Cc2Json
